import Mathlib

set_option maxHeartbeats 1000000

/-!
Shallow embedding of the ABI-decoding core of the
ganache-cli-block-explorer repository (package `utils`:
`LoadContractABIs`, `ParseTransactionData`, `formatValue`,
`ParseEventLogs`), together with the configuration types it consumes
(package `conf`).

Modelling conventions:
- machine bytes are `Nat` values below 256 collected in a `List`;
- the go-ethereum library calls made by the core (`abi.MethodById`,
  `abi.EventByID`, `abi.Arguments.Unpack`, `abi.Arguments.UnpackIntoMap`,
  keccak hashing inside `common.Address.Hex`) are modelled either as
  small executable models noted at their definitions or as explicit
  function parameters, since the library is outside this repository;
- a Go `map` ranged over by the code is modelled by the list of entries
  the `range` statement visits; Go leaves that visiting order
  unspecified, which the predicate `GoMapIter` captures;
- fallible Go functions returning `(value, error)` pairs are modelled
  with `Except`: `Except.error` corresponds to a `nil` value plus a
  non-nil error.
-/

/-- Byte strings (`[]byte` in the source). -/
abbrev Bytes := List Nat

/-- A 32-byte topic hash (`common.Hash` in the source). -/
abbrev Hash32 := List Nat

/-- One ABI argument (`abi.Argument`): a name, the textual form of its
type (`Type.String()`), and the indexed flag used by events. -/
structure Param where
  name : String
  typ : String
  indexed : Bool
deriving DecidableEq

/-- A contract method (`abi.Method`): 4-byte selector `ID`, name,
canonical signature `Sig`, and declared inputs. -/
structure Method where
  id : Bytes
  name : String
  sig : String
  inputs : List Param
deriving DecidableEq

/-- A contract event (`abi.Event`): 32-byte topic hash `ID`, name,
canonical signature `Sig`, and declared inputs. -/
structure EventDef where
  id : Hash32
  name : String
  sig : String
  inputs : List Param
deriving DecidableEq

/-- A parsed contract interface (`abi.ABI`), restricted to the two
member tables the core consults. -/
structure ABI where
  methods : List Method
  events : List EventDef
deriving DecidableEq

/-- Embeds `utils.ContractInfo`: a contract name together with its ABI. -/
structure ContractInfo where
  name : String
  abi : ABI
deriving DecidableEq

/-- Embeds `conf.ContractConfig`: a descriptor file path and a human name. -/
structure ContractConfig where
  path : String
  name : String
deriving DecidableEq

/-- Embeds `utils.ParsedParameter`: one decoded parameter of a method call or
event log.  `formatValue` always produces a Go `string`, so the value
field is a `String` here. -/
structure ParsedParameter where
  name : String
  typ : String
  value : String
  indexed : Bool
deriving DecidableEq

/-- Embeds `utils.ParsedTxData`: the decoded record returned by both
`ParseTransactionData` and `ParseEventLogs`.  Go zero values of the
unset fields are the empty string and the empty (nil) slice. -/
structure ParsedTxData where
  methodName : String
  methodSignature : String
  parameters : List ParsedParameter
  error : String
deriving DecidableEq

/-- A raw decoded value handed to `formatValue` (`interface\x7b\x7d` in Go),
as a closed variant over the cases the formatter distinguishes:
`common.Address`, `[]byte`, `string`, and everything else.  The
`other` variant carries the text that Go's generic `%v` formatting of
the underlying value produces, since that rendering happens inside the
standard library. -/
inductive AbiValue where
  | addr (a : Bytes)
  | bytes (bs : Bytes)
  | str (s : String)
  | other (text : String)
deriving DecidableEq

/-- Lowercase hexadecimal digit table (`hextable` in go-ethereum's hex
encoding). -/
def hexDigits : List Char := "0123456789abcdef".data

/-- The `n`-th lowercase hex digit. -/
def hexChar (n : Nat) : Char := hexDigits.getD n '0'

/-- Two lowercase hex digits of one byte, high nibble first.  Bytes are
below 256, so the extra `% 16` only makes the model total on `Nat`. -/
def byteToHex (n : Nat) : List Char := [hexChar (n / 16 % 16), hexChar (n % 16)]

/-- All hex characters of a byte string, in order. -/
def hexChars (bs : Bytes) : List Char := (bs.map byteToHex).flatten

/-- Modelled from go-ethereum `common.Bytes2Hex`: the lowercase hex
string of a byte string, with no prefix. -/
def Bytes2Hex (bs : Bytes) : String := ⟨hexChars bs⟩

/-- Modelled from go-ethereum `common.Hash.Hex`: `0x` followed by the
lowercase hex of the 32 bytes. -/
def hashHex (h : Hash32) : String := ⟨'0' :: 'x' :: hexChars h⟩

/-- Modelled from go-ethereum `common.Address.checksumHex`: walk the hex
characters; a character above `9` is uppercased when the matching
nibble of the checksum hash is above 7.  `i` counts hex characters from
0; character `i` matches the high nibble of hash byte `i / 2` when `i`
is even and the low nibble when `i` is odd. -/
def checksumNibble (sha : Bytes) (i : Nat) : Nat :=
  if i % 2 = 0 then sha.getD (i / 2) 0 / 16 % 16 else sha.getD (i / 2) 0 % 16

def checksumChars (sha : Bytes) : List Char → Nat → List Char
  | [], _ => []
  | c :: cs, i =>
    (if c > '9' ∧ checksumNibble sha i > 7 then c.toUpper else c) :: checksumChars sha cs (i + 1)

/-- Modelled from go-ethereum `common.Address.Hex`: `0x` plus the
EIP-55 checksum-cased hex of the address bytes, where the checksum hash
is keccak256 of the ASCII bytes of the lowercase hex string.  The
keccak function itself lives in the library and is passed in. -/
def addressHex (keccak : Bytes → Bytes) (a : Bytes) : String :=
  ⟨'0' :: 'x' :: checksumChars (keccak ((hexChars a).map Char.toNat)) (hexChars a) 0⟩

/-- Embeds `utils.formatValue`: renders a raw decoded value for display.
Addresses render via `common.Address.Hex`, byte strings via
`common.Bytes2Hex`, strings pass through, anything else renders via
Go's generic `%v` formatting (carried inside `AbiValue.other`). -/
def formatValue (keccak : Bytes → Bytes) : AbiValue → String
  | AbiValue.addr a => addressHex keccak a
  | AbiValue.bytes bs => Bytes2Hex bs
  | AbiValue.str s => s
  | AbiValue.other text => text

/-- Modelled from go-ethereum `abi.ABI.MethodById`: find a method whose
4-byte `ID` equals the given selector.  Go iterates an internal map in
unspecified order; this model fixes the declaration-list order, which
no claim depends on. -/
def ABI.MethodById (a : ABI) (sel : Bytes) : Option Method :=
  a.methods.find? (fun m => m.id == sel)

/-- Modelled from go-ethereum `abi.ABI.EventByID`: find an event whose
32-byte `ID` equals the given topic hash. -/
def ABI.EventByID (a : ABI) (topic : Hash32) : Option EventDef :=
  a.events.find? (fun e => e.id == topic)

/-- Lookup in the Go map `eventData` (`map[string]interface\x7b\x7d`).  The
map is modelled as an association list where the most recent binding of
a key comes first, so `find?` returns the value a Go map lookup
returns; the code only ever writes and looks up this map, never ranges
over it, so this representation is observationally exact. -/
def mapGet (m : List (String × AbiValue)) (k : String) : Option AbiValue :=
  (m.find? (fun p => p.1 == k)).map Prod.snd

/-- Write `m[k] = v` into the modelled Go map: prepend, so the newest
binding wins on lookup exactly as the Go assignment overwrites. -/
def mapPut (m : List (String × AbiValue)) (k : String) (v : AbiValue) : List (String × AbiValue) :=
  (k, v) :: m

/-- Write into a Go map modelled with unique keys, used for the
registry `map[string]ContractInfo`: overwrite the existing binding or
append a new one. -/
def goMapInsert {α : Type} (m : List (String × α)) (k : String) (v : α) : List (String × α) :=
  if m.any (fun p => p.1 == k) then m.map (fun p => if p.1 == k then (k, v) else p)
  else m ++ [(k, v)]

/-- The sequence of `ContractInfo` values a Go `range` statement over
the registry map visits.  Modelled from Go semantics: ranging over a
map visits every entry exactly once, in an order the language leaves
unspecified and that may differ between two range statements over the
same map. -/
def GoMapIter (m : List (String × ContractInfo)) (iter : List ContractInfo) : Prop :=
  List.Perm iter (m.map Prod.snd)

/-- Embeds the loop body of `utils.LoadContractABIs`: read each descriptor file,
parse it, and insert it under its configured name; any failure returns
the error alone (`nil` registry).  File reading (`os.ReadFile`) and ABI
parsing (`abi.JSON`) are I/O and library calls, passed in as
functions. -/
def loadLoop (readFile : String → Except String String)
    (abiJSON : String → Except String ABI) :
    List ContractConfig → List (String × ContractInfo) →
      Except String (List (String × ContractInfo))
  | [], acc => Except.ok acc
  | c :: cs, acc =>
    match readFile c.path with
    | Except.error e => Except.error ("failed to read ABI file " ++ c.path ++ ": " ++ e)
    | Except.ok text =>
      match abiJSON text with
      | Except.error e =>
        Except.error ("failed to parse ABI for contract " ++ c.name ++ ": " ++ e)
      | Except.ok a => loadLoop readFile abiJSON cs (goMapInsert acc c.name ⟨c.name, a⟩)

/-- Embeds `utils.LoadContractABIs`: build the registry from the configured
descriptor list, starting from an empty map. -/
def LoadContractABIs (readFile : String → Except String String)
    (abiJSON : String → Except String ABI) (contracts : List ContractConfig) :
    Except String (List (String × ContractInfo)) :=
  loadLoop readFile abiJSON contracts []

/-- Per-method body of `utils.ParseTransactionData`: unpack the bytes
after the selector against the matched method's inputs; on failure keep
the method name and signature next to the error; on success build one
`ParsedParameter` per input paired with a decoded value (`i <
len(inputs)` in the source, which is a `zip`). -/
def processMethod (unpack : List Param → Bytes → Except String (List AbiValue))
    (keccak : Bytes → Bytes) (m : Method) (rest : Bytes) : ParsedTxData :=
  match unpack m.inputs rest with
  | Except.error e =>
    { methodName := m.name, methodSignature := m.sig, parameters := [],
      error := "failed to unpack inputs: " ++ e }
  | Except.ok vals =>
    { methodName := m.name, methodSignature := m.sig,
      parameters := (m.inputs.zip vals).map (fun p =>
        { name := p.1.name, typ := p.1.typ,
          value := formatValue keccak p.2, indexed := false }),
      error := "" }

/-- The `range` loop of `utils.ParseTransactionData` over the visited
contract sequence: `MethodById` failure means `continue`; the first hit
is processed and returned. -/
def parseTxLoop (unpack : List Param → Bytes → Except String (List AbiValue))
    (keccak : Bytes → Bytes) (methodID rest : Bytes) :
    List ContractInfo → ParsedTxData
  | [] =>
    { methodName := "", methodSignature := "", parameters := [],
      error := "method not found in any loaded contract ABI" }
  | c :: cs =>
    match ABI.MethodById c.abi methodID with
    | none => parseTxLoop unpack keccak methodID rest cs
    | some m => processMethod unpack keccak m rest

/-- Embeds `utils.ParseTransactionData`: reject call data shorter than 4
bytes, otherwise split off the selector and run the registry loop over
the visited contract sequence `iter`. -/
def ParseTransactionData (unpack : List Param → Bytes → Except String (List AbiValue))
    (keccak : Bytes → Bytes) (iter : List ContractInfo) (data : Bytes) : ParsedTxData :=
  if data.length < 4 then
    { methodName := "", methodSignature := "", parameters := [],
      error := "transaction data too short" }
  else
    parseTxLoop unpack keccak (data.take 4) (data.drop 4) iter

/-- Non-indexed step of `utils.ParseEventLogs`: when the data payload
is non-empty and the event declares at least one non-indexed parameter,
run `UnpackIntoMap` (a library call, passed in) and fold its bindings
into the modelled map; otherwise leave the map empty. -/
def nonIndexedStep (unpackMap : List Param → Bytes → Except String (List (String × AbiValue)))
    (ev : EventDef) (data : Bytes) : Except String (List (String × AbiValue)) :=
  if 0 < data.length then
    if 0 < (ev.inputs.filter (fun i => !i.indexed)).length then
      match unpackMap ev.inputs data with
      | Except.error e => Except.error e
      | Except.ok bnd => Except.ok (bnd.foldl (fun m p => mapPut m p.1 p.2) [])
    else Except.ok []
  else Except.ok []

/-- Indexed-parameter loop of `utils.ParseEventLogs`: walk the declared
inputs with a topic cursor starting at 1; each indexed input takes the
next topic's `Hex()` string while topics remain. -/
def indexedLoop (topics : List Hash32) :
    List Param → Nat → List (String × AbiValue) → List (String × AbiValue)
  | [], _, m => m
  | input :: rest, ti, m =>
    if input.indexed ∧ ti < topics.length then
      indexedLoop topics rest (ti + 1)
        (mapPut m input.name (AbiValue.str (hashHex (topics.getD ti []))))
    else indexedLoop topics rest ti m

/-- Final assembly of `utils.ParseEventLogs`: walk the declared inputs
in order and emit a `ParsedParameter` for each one present in the
event-data map. -/
def buildEventParams (keccak : Bytes → Bytes) (inputs : List Param)
    (eventData : List (String × AbiValue)) : List ParsedParameter :=
  inputs.filterMap (fun input =>
    (mapGet eventData input.name).map (fun v =>
      { name := input.name, typ := input.typ,
        value := formatValue keccak v, indexed := input.indexed }))

/-- Per-event body of `utils.ParseEventLogs`: decode the non-indexed
payload (keeping the event name, but not its signature, next to the
error on failure, exactly as the source does), then assign topics to
indexed parameters and assemble the parameter list. -/
def processEvent (unpackMap : List Param → Bytes → Except String (List (String × AbiValue)))
    (keccak : Bytes → Bytes) (ev : EventDef) (topics : List Hash32) (data : Bytes) :
    ParsedTxData :=
  match nonIndexedStep unpackMap ev data with
  | Except.error e =>
    { methodName := ev.name, methodSignature := "", parameters := [],
      error := "failed to unpack event data: " ++ e }
  | Except.ok m0 =>
    { methodName := ev.name, methodSignature := ev.sig,
      parameters := buildEventParams keccak ev.inputs (indexedLoop topics ev.inputs 1 m0),
      error := "" }

/-- The `range` loop of `utils.ParseEventLogs` over the visited
contract sequence: `EventByID` failure means `continue`; the first hit
is processed and returned. -/
def parseEvLoop (unpackMap : List Param → Bytes → Except String (List (String × AbiValue)))
    (keccak : Bytes → Bytes) (eventID : Hash32) (topics : List Hash32) (data : Bytes) :
    List ContractInfo → ParsedTxData
  | [] =>
    { methodName := "", methodSignature := "", parameters := [],
      error := "event not found in any loaded contract ABI" }
  | c :: cs =>
    match ABI.EventByID c.abi eventID with
    | none => parseEvLoop unpackMap keccak eventID topics data cs
    | some ev => processEvent unpackMap keccak ev topics data

/-- Embeds `utils.ParseEventLogs`: reject an empty topic list, otherwise use
the first topic as the event identifier and run the registry loop over
the visited contract sequence `iter`. -/
def ParseEventLogs (unpackMap : List Param → Bytes → Except String (List (String × AbiValue)))
    (keccak : Bytes → Bytes) (iter : List ContractInfo) (topics : List Hash32)
    (data : Bytes) : ParsedTxData :=
  match topics with
  | [] =>
    { methodName := "", methodSignature := "", parameters := [],
      error := "no topics in log" }
  | eventID :: _ => parseEvLoop unpackMap keccak eventID topics data iter

/-- First selector match over the visited contract sequence: the
resolution step of the transaction path, as a specification function. -/
def findMethod : List ContractInfo → Bytes → Option (ContractInfo × Method)
  | [], _ => none
  | c :: cs, sel =>
    match ABI.MethodById c.abi sel with
    | some m => some (c, m)
    | none => findMethod cs sel

/-- First topic-hash match over the visited contract sequence: the
resolution step of the event path, as a specification function. -/
def findEvent : List ContractInfo → Hash32 → Option (ContractInfo × EventDef)
  | [], _ => none
  | c :: cs, topic =>
    match ABI.EventByID c.abi topic with
    | some ev => some (c, ev)
    | none => findEvent cs topic

/-- Modelled from go-ethereum `abi.Arguments.Unpack`, restricted to
static 32-byte word arguments; used to instantiate the abstract
unpacking parameter on concrete inputs.  It yields one 32-byte word per
declared argument and fails on every other payload length, mirroring
the library's length checking for static tuples. -/
def wordsUnpack (args : List Param) (data : Bytes) : Except String (List AbiValue) :=
  if data.length = 32 * args.length then
    Except.ok ((List.range args.length).map (fun i =>
      AbiValue.bytes ((data.drop (32 * i)).take 32)))
  else Except.error "abi: improperly formatted input"

/-- Modelled from go-ethereum `abi.Arguments.UnpackIntoMap`, restricted
to static 32-byte word arguments: binds one 32-byte word to each
non-indexed argument name, in declaration order, and fails on every
other payload length. -/
def wordsUnpackMap (args : List Param) (data : Bytes) :
    Except String (List (String × AbiValue)) :=
  let ni := args.filter (fun i => !i.indexed)
  if data.length = 32 * ni.length then
    Except.ok (ni.enum.map (fun p =>
      (p.2.name, AbiValue.bytes ((data.drop (32 * p.1)).take 32))))
  else Except.error "abi: improperly formatted input"

/-- A keccak stand-in for concrete witnesses (the claims never depend
on the hash values themselves). -/
def demoKeccak : Bytes → Bytes := fun _ => List.replicate 32 0

/-- Demo method `transfer(address,uint256)`. -/
def mTransfer : Method :=
  { id := [1, 2, 3, 4], name := "transfer", sig := "transfer(address,uint256)",
    inputs := [⟨"to", "address", false⟩, ⟨"amount", "uint256", false⟩] }

/-- Demo event `Transfer(address,address,uint256)` with two indexed
parameters. -/
def evTransfer : EventDef :=
  { id := List.replicate 32 7, name := "Transfer",
    sig := "Transfer(address,address,uint256)",
    inputs := [⟨"from", "address", true⟩, ⟨"to", "address", true⟩,
               ⟨"value", "uint256", false⟩] }

/-- Demo event `Pair(address,address)` whose two indexed parameters are
both unnamed, as the ABI JSON schema permits. -/
def evPair : EventDef :=
  { id := List.replicate 32 9, name := "Pair", sig := "Pair(address,address)",
    inputs := [⟨"", "address", true⟩, ⟨"", "address", true⟩] }

/-- Demo contract holding the demo method and events. -/
def tokenContract : ContractInfo :=
  { name := "Token", abi := { methods := [mTransfer], events := [evTransfer, evPair] } }

/-- Two methods sharing one 4-byte selector, as happens between
distinct signatures whose hashes collide in the first 4 bytes. -/
def methodF : Method := { id := [1, 2, 3, 4], name := "f", sig := "f()", inputs := [] }

/-- Second colliding method, in another contract. -/
def methodG : Method := { id := [1, 2, 3, 4], name := "g", sig := "g()", inputs := [] }

/-- Contract holding `methodF`. -/
def contractA : ContractInfo := { name := "A", abi := { methods := [methodF], events := [] } }

/-- Contract holding `methodG`. -/
def contractB : ContractInfo := { name := "B", abi := { methods := [methodG], events := [] } }

/-- Registry map holding the two colliding contracts. -/
def demoRegistry : List (String × ContractInfo) := [("A", contractA), ("B", contractB)]

/-! ### Helper lemmas -/

/-- Decidability of the map-iteration predicate, for concrete checks. -/
instance (m : List (String × ContractInfo)) (iter : List ContractInfo) :
    Decidable (GoMapIter m iter) :=
  List.decidablePerm iter (m.map Prod.snd)

theorem string_append_ne_empty (c : Char) (cs : List Char) (e : String) :
    (String.mk (c :: cs) ++ e) ≠ "" := by
  intro h
  have hd := congrArg String.data h
  rw [String.data_append] at hd
  exact List.cons_ne_nil c _ hd

theorem parseTxLoop_of_findMethod_some (unpack : List Param → Bytes → Except String (List AbiValue))
    (keccak : Bytes → Bytes) (sel rest : Bytes) (iter : List ContractInfo)
    (c : ContractInfo) (m : Method) (h : findMethod iter sel = some (c, m)) :
    parseTxLoop unpack keccak sel rest iter = processMethod unpack keccak m rest := by
  induction iter with
  | nil => simp [findMethod] at h
  | cons c0 cs ih =>
    rw [findMethod] at h
    rw [parseTxLoop]
    cases h0 : ABI.MethodById c0.abi sel with
    | none => rw [h0] at h; exact ih h
    | some m0 =>
      rw [h0] at h
      obtain ⟨-, rfl⟩ := Prod.mk.injEq _ _ _ _ ▸ (Option.some.injEq _ _ ▸ h)
      rfl

theorem parseEvLoop_of_findEvent_some
    (unpackMap : List Param → Bytes → Except String (List (String × AbiValue)))
    (keccak : Bytes → Bytes) (eventID : Hash32) (topics : List Hash32) (data : Bytes)
    (iter : List ContractInfo) (c : ContractInfo) (ev : EventDef)
    (h : findEvent iter eventID = some (c, ev)) :
    parseEvLoop unpackMap keccak eventID topics data iter =
      processEvent unpackMap keccak ev topics data := by
  induction iter with
  | nil => simp [findEvent] at h
  | cons c0 cs ih =>
    rw [findEvent] at h
    rw [parseEvLoop]
    cases h0 : ABI.EventByID c0.abi eventID with
    | none => rw [h0] at h; exact ih h
    | some ev0 =>
      rw [h0] at h
      obtain ⟨-, rfl⟩ := Prod.mk.injEq _ _ _ _ ▸ (Option.some.injEq _ _ ▸ h)
      rfl

/-- Helper for deciding equalities on `Except` values in concrete
checks. -/
def exceptToSum {ε α : Type} : Except ε α → ε ⊕ α
  | Except.error e => Sum.inl e
  | Except.ok a => Sum.inr a

instance {ε α : Type} [DecidableEq ε] [DecidableEq α] : DecidableEq (Except ε α) :=
  fun a b =>
    decidable_of_iff (exceptToSum a = exceptToSum b)
      (by cases a <;> cases b <;> simp [exceptToSum])

theorem processMethod_not_both (unpack : List Param → Bytes → Except String (List AbiValue))
    (keccak : Bytes → Bytes) (m : Method) (rest : Bytes) :
    (processMethod unpack keccak m rest).parameters = [] ∨
      (processMethod unpack keccak m rest).error = "" := by
  unfold processMethod
  cases unpack m.inputs rest with
  | error e => left; rfl
  | ok vals => right; rfl

theorem processEvent_not_both
    (unpackMap : List Param → Bytes → Except String (List (String × AbiValue)))
    (keccak : Bytes → Bytes) (ev : EventDef) (topics : List Hash32) (data : Bytes) :
    (processEvent unpackMap keccak ev topics data).parameters = [] ∨
      (processEvent unpackMap keccak ev topics data).error = "" := by
  unfold processEvent
  cases nonIndexedStep unpackMap ev data with
  | error e => left; rfl
  | ok m0 => right; rfl

theorem parseTxLoop_not_both (unpack : List Param → Bytes → Except String (List AbiValue))
    (keccak : Bytes → Bytes) (sel rest : Bytes) (iter : List ContractInfo) :
    (parseTxLoop unpack keccak sel rest iter).parameters = [] ∨
      (parseTxLoop unpack keccak sel rest iter).error = "" := by
  induction iter with
  | nil => left; rfl
  | cons c cs ih =>
    rw [parseTxLoop]
    cases h0 : ABI.MethodById c.abi sel with
    | none => exact ih
    | some m => exact processMethod_not_both unpack keccak m rest

theorem parseEvLoop_not_both
    (unpackMap : List Param → Bytes → Except String (List (String × AbiValue)))
    (keccak : Bytes → Bytes) (eventID : Hash32) (topics : List Hash32) (data : Bytes)
    (iter : List ContractInfo) :
    (parseEvLoop unpackMap keccak eventID topics data iter).parameters = [] ∨
      (parseEvLoop unpackMap keccak eventID topics data iter).error = "" := by
  induction iter with
  | nil => left; rfl
  | cons c cs ih =>
    rw [parseEvLoop]
    cases h0 : ABI.EventByID c.abi eventID with
    | none => exact ih
    | some ev => exact processEvent_not_both unpackMap keccak ev topics data

/-! ### Claim theorems -/

/-- C3: for every input, the records returned by `ParseTransactionData`
and by `ParseEventLogs` never populate both a parameter list and an
error: every record with a non-empty error string has an empty
parameter list, and every record with a non-empty parameter list has an
empty error string, so exactly one of the two fields is the meaningful
one (a success carries the decoded, possibly empty, list with `error =
""`; a failure carries a non-empty `error` with no parameters). -/
theorem claim3_never_both_parameters_and_error
    (unpack : List Param → Bytes → Except String (List AbiValue))
    (unpackMap : List Param → Bytes → Except String (List (String × AbiValue)))
    (keccak : Bytes → Bytes) (iter : List ContractInfo) (data payload : Bytes)
    (topics : List Hash32) :
    ((ParseTransactionData unpack keccak iter data).parameters = [] ∨
      (ParseTransactionData unpack keccak iter data).error = "") ∧
    ((ParseEventLogs unpackMap keccak iter topics payload).parameters = [] ∨
      (ParseEventLogs unpackMap keccak iter topics payload).error = "") := by
  constructor
  · unfold ParseTransactionData
    by_cases h : data.length < 4
    · rw [if_pos h]; left; rfl
    · rw [if_neg h]
      exact parseTxLoop_not_both unpack keccak (data.take 4) (data.drop 4) iter
  · cases topics with
    | nil => left; rfl
    | cons t ts => exact parseEvLoop_not_both unpackMap keccak t (t :: ts) payload iter

/-- C9: for every call data shorter than 4 bytes, `ParseTransactionData`
returns the fixed `PayloadTooShort`-style record — the error string
`transaction data too short` with empty name, empty signature and empty
parameter list — independently of the registry iteration and of the
unpacker, so no selector lookup or parameter decoding is attempted. -/
theorem claim9_short_calldata_aborts
    (unpack : List Param → Bytes → Except String (List AbiValue))
    (keccak : Bytes → Bytes) (iter : List ContractInfo) (data : Bytes)
    (h : data.length < 4) :
    ParseTransactionData unpack keccak iter data =
      ⟨"", "", [], "transaction data too short"⟩ := by
  unfold ParseTransactionData
  rw [if_pos h]

/-- Witness for C9 at a concrete two-byte call data. -/
theorem claim9_short_calldata_aborts_witness :
    ([1, 2] : Bytes).length < 4 ∧
      ParseTransactionData wordsUnpack demoKeccak [tokenContract] [1, 2] =
        ⟨"", "", [], "transaction data too short"⟩ :=
  ⟨by decide,
    claim9_short_calldata_aborts wordsUnpack demoKeccak [tokenContract] [1, 2] (by decide)⟩

/-- C4: whenever the first 4 bytes of the call data select a loaded
method but the remaining bytes fail to unpack, the record keeps the
matched method's name and signature next to the (non-empty) unpack
error, with an empty parameter list. -/
theorem claim4_unpack_failure_keeps_identity
    (unpack : List Param → Bytes → Except String (List AbiValue))
    (keccak : Bytes → Bytes) (iter : List ContractInfo) (data : Bytes)
    (c : ContractInfo) (m : Method) (e : String)
    (h4 : 4 ≤ data.length)
    (hfind : findMethod iter (data.take 4) = some (c, m))
    (hunpack : unpack m.inputs (data.drop 4) = Except.error e) :
    ParseTransactionData unpack keccak iter data =
        ⟨m.name, m.sig, [], "failed to unpack inputs: " ++ e⟩ ∧
      ("failed to unpack inputs: " ++ e) ≠ "" := by
  constructor
  · unfold ParseTransactionData
    rw [if_neg (by omega)]
    rw [parseTxLoop_of_findMethod_some unpack keccak (data.take 4) (data.drop 4) iter c m hfind]
    unfold processMethod
    rw [hunpack]
  · exact string_append_ne_empty _ _ e

/-- Witness for C4: the demo `transfer` method matched by a 5-byte call
data whose single payload byte cannot be unpacked. -/
theorem claim4_unpack_failure_keeps_identity_witness :
    4 ≤ ([1, 2, 3, 4, 5] : Bytes).length ∧
    findMethod [tokenContract] (([1, 2, 3, 4, 5] : Bytes).take 4) =
      some (tokenContract, mTransfer) ∧
    wordsUnpack mTransfer.inputs (([1, 2, 3, 4, 5] : Bytes).drop 4) =
      Except.error "abi: improperly formatted input" ∧
    (ParseTransactionData wordsUnpack demoKeccak [tokenContract] [1, 2, 3, 4, 5] =
        ⟨mTransfer.name, mTransfer.sig, [],
          "failed to unpack inputs: " ++ "abi: improperly formatted input"⟩ ∧
      ("failed to unpack inputs: " ++ "abi: improperly formatted input") ≠ "") :=
  ⟨by decide, by decide, by decide,
    claim4_unpack_failure_keeps_identity wordsUnpack demoKeccak [tokenContract]
      [1, 2, 3, 4, 5] tokenContract mTransfer "abi: improperly formatted input"
      (by decide) (by decide) (by decide)⟩

/-- C1 (evidence of the divergence): at a concrete log whose first
topic matches the loaded `Transfer` event and whose one-byte data
payload fails to decode, `ParseEventLogs` returns the matched event's
name next to a non-empty error, but leaves the signature field empty:
the event-path decode-failure branch of the source sets `MethodName`
and `Error` only, unlike the transaction path, which also sets
`MethodSignature`. -/
theorem claim1_event_decode_error_drops_signature :
    (ParseEventLogs wordsUnpackMap demoKeccak [tokenContract]
        [List.replicate 32 7, List.replicate 32 5] [0]).methodName = "Transfer" ∧
    (ParseEventLogs wordsUnpackMap demoKeccak [tokenContract]
        [List.replicate 32 7, List.replicate 32 5] [0]).error ≠ "" ∧
    (ParseEventLogs wordsUnpackMap demoKeccak [tokenContract]
        [List.replicate 32 7, List.replicate 32 5] [0]).methodSignature = "" := by
  decide

/-- C2, counterexample: one registry holding two descriptors that share
a selector, two legal iteration sequences of the same registry map, and
one call data on which the two resolutions pick different descriptors —
so resolution over the Go registry map is not reproducible and does not
follow a defined insertion order. -/
theorem claim2_resolution_not_reproducible :
    GoMapIter demoRegistry [contractA, contractB] ∧
    GoMapIter demoRegistry [contractB, contractA] ∧
    ParseTransactionData wordsUnpack demoKeccak [contractA, contractB] [1, 2, 3, 4] ≠
      ParseTransactionData wordsUnpack demoKeccak [contractB, contractA] [1, 2, 3, 4] :=
  ⟨by decide, by decide, by decide⟩

/-- C2, amended: resolution examines the descriptors in the order the
registry map iteration happens to visit them and returns on the first
descriptor containing a matching member, for the transaction path and
the event path alike; so resolution is a deterministic function of the
visited sequence, but that sequence is not an insertion order and may
differ between two iterations of the same Go map. -/
theorem claim2_first_match_resolution
    (unpack : List Param → Bytes → Except String (List AbiValue))
    (unpackMap : List Param → Bytes → Except String (List (String × AbiValue)))
    (keccak : Bytes → Bytes) (iter : List ContractInfo) (data payload : Bytes)
    (t0 : Hash32) (rest : List Hash32) (c c' : ContractInfo) (m : Method) (ev : EventDef)
    (h4 : 4 ≤ data.length)
    (hm : findMethod iter (data.take 4) = some (c, m))
    (he : findEvent iter t0 = some (c', ev)) :
    ParseTransactionData unpack keccak iter data =
        processMethod unpack keccak m (data.drop 4) ∧
      ParseEventLogs unpackMap keccak iter (t0 :: rest) payload =
        processEvent unpackMap keccak ev (t0 :: rest) payload := by
  constructor
  · unfold ParseTransactionData
    rw [if_neg (by omega)]
    exact parseTxLoop_of_findMethod_some unpack keccak (data.take 4) (data.drop 4) iter c m hm
  · exact parseEvLoop_of_findEvent_some unpackMap keccak t0 (t0 :: rest) payload iter c' ev he

/-- Witness for the amended C2 on the demo registry: the `transfer`
selector and the `Transfer` topic hash both resolve to the first (and
only) visited descriptor. -/
theorem claim2_first_match_resolution_witness :
    4 ≤ ([1, 2, 3, 4] : Bytes).length ∧
    findMethod [tokenContract] (([1, 2, 3, 4] : Bytes).take 4) =
      some (tokenContract, mTransfer) ∧
    findEvent [tokenContract] (List.replicate 32 7) = some (tokenContract, evTransfer) ∧
    (ParseTransactionData wordsUnpack demoKeccak [tokenContract] [1, 2, 3, 4] =
        processMethod wordsUnpack demoKeccak mTransfer (([1, 2, 3, 4] : Bytes).drop 4) ∧
      ParseEventLogs wordsUnpackMap demoKeccak [tokenContract]
          (List.replicate 32 7 :: [List.replicate 32 5]) [] =
        processEvent wordsUnpackMap demoKeccak evTransfer
          (List.replicate 32 7 :: [List.replicate 32 5]) []) :=
  ⟨by decide, by decide, by decide,
    claim2_first_match_resolution wordsUnpack wordsUnpackMap demoKeccak [tokenContract]
      [1, 2, 3, 4] [] (List.replicate 32 7) [List.replicate 32 5] tokenContract tokenContract
      mTransfer evTransfer (by decide) (by decide) (by decide)⟩

/-- C6: when the selector matches a loaded method and the remaining
bytes unpack into one raw value per declared input (which the library
unpacker guarantees on success), the record has an empty error and
exactly one decoded parameter per declared input parameter, carrying
the declared names and type tags in declaration order, none of them
indexed. -/
theorem claim6_success_one_parameter_per_input
    (unpack : List Param → Bytes → Except String (List AbiValue))
    (keccak : Bytes → Bytes) (iter : List ContractInfo) (data : Bytes)
    (c : ContractInfo) (m : Method) (vals : List AbiValue)
    (h4 : 4 ≤ data.length)
    (hfind : findMethod iter (data.take 4) = some (c, m))
    (hunpack : unpack m.inputs (data.drop 4) = Except.ok vals)
    (hlen : vals.length = m.inputs.length) :
    (ParseTransactionData unpack keccak iter data).error = "" ∧
    (ParseTransactionData unpack keccak iter data).parameters.length = m.inputs.length ∧
    (ParseTransactionData unpack keccak iter data).parameters.map
        (fun p => (p.name, p.typ, p.indexed)) =
      m.inputs.map (fun i => (i.name, i.typ, false)) := by
  have hred : ParseTransactionData unpack keccak iter data =
      processMethod unpack keccak m (data.drop 4) := by
    unfold ParseTransactionData
    rw [if_neg (by omega)]
    exact parseTxLoop_of_findMethod_some unpack keccak (data.take 4) (data.drop 4) iter c m hfind
  rw [hred]
  unfold processMethod
  rw [hunpack]
  have hfst : (m.inputs.zip vals).map Prod.fst = m.inputs :=
    List.map_fst_zip m.inputs vals (by omega)
  refine ⟨rfl, ?_, ?_⟩
  · show ((m.inputs.zip vals).map _).length = m.inputs.length
    rw [List.length_map, List.length_zip, hlen, Nat.min_self]
  · show ((m.inputs.zip vals).map _).map _ = _
    rw [List.map_map]
    have hcomp :
        ((fun p : ParsedParameter => (p.name, p.typ, p.indexed)) ∘
          (fun p : Param × AbiValue =>
            ({ name := p.1.name, typ := p.1.typ,
               value := formatValue keccak p.2, indexed := false } : ParsedParameter))) =
          ((fun i : Param => (i.name, i.typ, false)) ∘ Prod.fst) := rfl
    rw [hcomp, ← List.map_map, hfst]

/-- Witness for C6: the demo `transfer` method with a 64-byte payload
decoding into two 32-byte words. -/
theorem claim6_success_one_parameter_per_input_witness :
    4 ≤ (([1, 2, 3, 4] : Bytes) ++ List.replicate 64 0).length ∧
    findMethod [tokenContract] ((([1, 2, 3, 4] : Bytes) ++ List.replicate 64 0).take 4) =
      some (tokenContract, mTransfer) ∧
    wordsUnpack mTransfer.inputs ((([1, 2, 3, 4] : Bytes) ++ List.replicate 64 0).drop 4) =
      Except.ok [AbiValue.bytes (List.replicate 32 0), AbiValue.bytes (List.replicate 32 0)] ∧
    ([AbiValue.bytes (List.replicate 32 0), AbiValue.bytes (List.replicate 32 0)].length =
      mTransfer.inputs.length) ∧
    ((ParseTransactionData wordsUnpack demoKeccak [tokenContract]
        (([1, 2, 3, 4] : Bytes) ++ List.replicate 64 0)).error = "" ∧
     (ParseTransactionData wordsUnpack demoKeccak [tokenContract]
        (([1, 2, 3, 4] : Bytes) ++ List.replicate 64 0)).parameters.length =
          mTransfer.inputs.length ∧
     (ParseTransactionData wordsUnpack demoKeccak [tokenContract]
        (([1, 2, 3, 4] : Bytes) ++ List.replicate 64 0)).parameters.map
          (fun p => (p.name, p.typ, p.indexed)) =
        mTransfer.inputs.map (fun i => (i.name, i.typ, false))) :=
  ⟨by decide, by decide, by decide, by decide,
    claim6_success_one_parameter_per_input wordsUnpack demoKeccak [tokenContract]
      (([1, 2, 3, 4] : Bytes) ++ List.replicate 64 0) tokenContract mTransfer
      [AbiValue.bytes (List.replicate 32 0), AbiValue.bytes (List.replicate 32 0)]
      (by decide) (by decide) (by decide) (by decide)⟩

/-- Whether a modelled fallible call failed. -/
def exceptFails {ε α : Type} : Except ε α → Bool
  | Except.error _ => true
  | Except.ok _ => false

theorem loadLoop_cons_read_error (readFile : String → Except String String)
    (abiJSON : String → Except String ABI) (c : ContractConfig) (cs : List ContractConfig)
    (acc : List (String × ContractInfo)) (e : String)
    (hr : readFile c.path = Except.error e) :
    loadLoop readFile abiJSON (c :: cs) acc =
      Except.error ("failed to read ABI file " ++ c.path ++ ": " ++ e) := by
  rw [loadLoop, hr]

theorem loadLoop_cons_read_ok (readFile : String → Except String String)
    (abiJSON : String → Except String ABI) (c : ContractConfig) (cs : List ContractConfig)
    (acc : List (String × ContractInfo)) (text : String)
    (hr : readFile c.path = Except.ok text) :
    loadLoop readFile abiJSON (c :: cs) acc =
      (match abiJSON text with
       | Except.error e =>
         Except.error ("failed to parse ABI for contract " ++ c.name ++ ": " ++ e)
       | Except.ok a => loadLoop readFile abiJSON cs (goMapInsert acc c.name ⟨c.name, a⟩)) := by
  rw [loadLoop, hr]

theorem loadLoop_error_of_fail (readFile : String → Except String String)
    (abiJSON : String → Except String ABI) (contracts : List ContractConfig)
    (acc : List (String × ContractInfo))
    (h : ∃ c ∈ contracts, exceptFails (readFile c.path) = true ∨
        ∃ s, readFile c.path = Except.ok s ∧ exceptFails (abiJSON s) = true) :
    ∃ e, loadLoop readFile abiJSON contracts acc = Except.error e := by
  induction contracts generalizing acc with
  | nil =>
    obtain ⟨c, hc, -⟩ := h
    exact absurd hc (List.not_mem_nil c)
  | cons c0 cs ih =>
    obtain ⟨c, hc, hfail⟩ := h
    cases hr : readFile c0.path with
    | error e => exact ⟨_, loadLoop_cons_read_error readFile abiJSON c0 cs acc e hr⟩
    | ok text =>
      rw [loadLoop_cons_read_ok readFile abiJSON c0 cs acc text hr]
      cases hp : abiJSON text with
      | error e => exact ⟨_, rfl⟩
      | ok a =>
        rcases List.mem_cons.mp hc with rfl | hcs
        · rcases hfail with hf | ⟨s, hs, hf⟩
          · rw [hr] at hf
            simp [exceptFails] at hf
          · rw [hr] at hs
            injection hs with hs
            subst hs
            rw [hp] at hf
            simp [exceptFails] at hf
        · exact ih _ ⟨c, hcs, hfail⟩

/-- C8: whenever any configured descriptor fails to read or to parse,
`LoadContractABIs` returns only an error: no registry value at all is
produced (the `Except.error` result models Go's `(nil, err)` return),
so in particular no partially loaded registry escapes. -/
theorem claim8_load_failure_returns_no_registry (readFile : String → Except String String)
    (abiJSON : String → Except String ABI) (contracts : List ContractConfig)
    (h : ∃ c ∈ contracts, exceptFails (readFile c.path) = true ∨
        ∃ s, readFile c.path = Except.ok s ∧ exceptFails (abiJSON s) = true) :
    (∀ r, LoadContractABIs readFile abiJSON contracts ≠ Except.ok r) ∧
      ∃ e, LoadContractABIs readFile abiJSON contracts = Except.error e := by
  obtain ⟨e, he⟩ := loadLoop_error_of_fail readFile abiJSON contracts [] h
  refine ⟨?_, e, he⟩
  intro r hr
  rw [LoadContractABIs] at hr
  rw [he] at hr
  exact Except.noConfusion hr

/-- Demo file system holding only `token.json`. -/
def demoReadFile : String → Except String String := fun p =>
  if p == "token.json" then Except.ok "[]" else Except.error "open: no such file"

/-- Demo descriptor parser accepting every blob. -/
def demoAbiJSON : String → Except String ABI := fun _ => Except.ok ⟨[], []⟩

/-- Demo configuration naming a descriptor file that does not exist. -/
def badConfig : ContractConfig := ⟨"missing.json", "Broken"⟩

/-- Witness for C8: a configuration whose single descriptor file is
unreadable. -/
theorem claim8_load_failure_returns_no_registry_witness :
    (∃ c ∈ [badConfig], exceptFails (demoReadFile c.path) = true ∨
        ∃ s, demoReadFile c.path = Except.ok s ∧ exceptFails (demoAbiJSON s) = true) ∧
    ((∀ r, LoadContractABIs demoReadFile demoAbiJSON [badConfig] ≠ Except.ok r) ∧
      ∃ e, LoadContractABIs demoReadFile demoAbiJSON [badConfig] = Except.error e) :=
  ⟨⟨badConfig, List.mem_singleton.mpr rfl, Or.inl (by decide)⟩,
    claim8_load_failure_returns_no_registry demoReadFile demoAbiJSON [badConfig]
      ⟨badConfig, List.mem_singleton.mpr rfl, Or.inl (by decide)⟩⟩

theorem hexChar_mem_hexDigits (n : Nat) : hexChar n ∈ hexDigits := by
  unfold hexChar
  by_cases h : n < hexDigits.length
  · rw [List.getD_eq_getElem hexDigits '0' h]
    exact List.getElem_mem h
  · rw [List.getD_eq_default hexDigits '0' (by omega)]
    decide

theorem mem_hexChars_mem_hexDigits (bs : Bytes) (c : Char) (h : c ∈ hexChars bs) :
    c ∈ hexDigits := by
  unfold hexChars at h
  obtain ⟨l, hl, hc⟩ := List.mem_flatten.mp h
  obtain ⟨b, hb, rfl⟩ := List.mem_map.mp hl
  unfold byteToHex at hc
  rcases List.mem_cons.mp hc with rfl | hc2
  · exact hexChar_mem_hexDigits _
  · rcases List.mem_cons.mp hc2 with rfl | hc3
    · exact hexChar_mem_hexDigits _
    · exact absurd hc3 (List.not_mem_nil c)

theorem hexDigit_lower_cases (c : Char) (h : c ∈ hexDigits) :
    c.toUpper.toLower = c ∧ c.toLower = c := by
  fin_cases h <;> exact ⟨by decide, by decide⟩

theorem checksumChars_toLower (sha : Bytes) (cs : List Char) (i : Nat)
    (h : ∀ c ∈ cs, c ∈ hexDigits) :
    (checksumChars sha cs i).map Char.toLower = cs := by
  induction cs generalizing i with
  | nil => rfl
  | cons c cs ih =>
    rw [checksumChars, List.map_cons]
    have hc := hexDigit_lower_cases c (h c (List.mem_cons_self c cs))
    have htail := ih (i + 1) (fun x hx => h x (List.mem_cons_of_mem c hx))
    by_cases hcase : c > '9' ∧ checksumNibble sha i > 7
    · rw [if_pos hcase, htail, hc.1]
    · rw [if_neg hcase, htail, hc.2]

theorem addressHex_data_toLower (keccak : Bytes → Bytes) (a : Bytes) :
    (addressHex keccak a).data.map Char.toLower = '0' :: 'x' :: (Bytes2Hex a).data := by
  show ('0' :: 'x' :: checksumChars _ (hexChars a) 0).map Char.toLower =
    '0' :: 'x' :: hexChars a
  rw [List.map_cons, List.map_cons,
    checksumChars_toLower _ _ _ (fun c hc => mem_hexChars_mem_hexDigits a c hc),
    show '0'.toLower = '0' from by decide, show 'x'.toLower = 'x' from by decide]

/-- C7: `formatValue` renders each closed variant as the source does:
an address via `common.Address.Hex` — whose output is `0x` plus the hex
form of the address with checksum casing only (lowercasing it yields
exactly `0x` plus `Bytes2Hex` of the bytes) —, a byte array via
`common.Bytes2Hex` — a string of lowercase hex digits carrying no `0x`
prefix —, a string unchanged, and any other value through Go's generic
`%v` textual rendering. -/
theorem claim7_formatValue_rendering (keccak : Bytes → Bytes) (a bs : Bytes)
    (s text : String) :
    (formatValue keccak (AbiValue.addr a) = addressHex keccak a ∧
      (addressHex keccak a).data.map Char.toLower = '0' :: 'x' :: (Bytes2Hex a).data) ∧
    (formatValue keccak (AbiValue.bytes bs) = Bytes2Hex bs ∧
      (Bytes2Hex bs).data.all (fun c => hexDigits.contains c && (c.toLower == c)) = true ∧
      (Bytes2Hex bs).data.take 2 ≠ ['0', 'x']) ∧
    formatValue keccak (AbiValue.str s) = s ∧
    formatValue keccak (AbiValue.other text) = text := by
  refine ⟨⟨rfl, addressHex_data_toLower keccak a⟩, ⟨rfl, ?_, ?_⟩, rfl, rfl⟩
  · rw [List.all_eq_true]
    intro c hc
    have hmem : c ∈ hexDigits := mem_hexChars_mem_hexDigits bs c hc
    have hlow := (hexDigit_lower_cases c hmem).2
    rw [Bool.and_eq_true, beq_iff_eq]
    exact ⟨List.elem_eq_true_of_mem hmem, hlow⟩
  · intro hpre
    have hx : 'x' ∈ (Bytes2Hex bs).data := by
      have hxt : 'x' ∈ (Bytes2Hex bs).data.take 2 := by
        rw [hpre]
        decide
      exact List.take_subset 2 (Bytes2Hex bs).data hxt
    have := mem_hexChars_mem_hexDigits bs 'x' hx
    simp [hexDigits] at this

/-- Witness for C7 at concrete values of every variant. -/
theorem claim7_formatValue_rendering_witness :
    (formatValue demoKeccak (AbiValue.addr [171, 205]) = addressHex demoKeccak [171, 205] ∧
      (addressHex demoKeccak [171, 205]).data.map Char.toLower =
        '0' :: 'x' :: (Bytes2Hex [171, 205]).data) ∧
    (formatValue demoKeccak (AbiValue.bytes [0, 255]) = Bytes2Hex [0, 255] ∧
      (Bytes2Hex [0, 255]).data.all (fun c => hexDigits.contains c && (c.toLower == c)) =
        true ∧
      (Bytes2Hex [0, 255]).data.take 2 ≠ ['0', 'x']) ∧
    formatValue demoKeccak (AbiValue.str "hello") = "hello" ∧
    formatValue demoKeccak (AbiValue.other "42") = "42" :=
  claim7_formatValue_rendering demoKeccak [171, 205] [0, 255] "hello" "42"

theorem mapGet_mapPut_self (m : List (String × AbiValue)) (k : String) (v : AbiValue) :
    mapGet (mapPut m k v) k = some v := by
  unfold mapGet mapPut
  rw [List.find?_cons_of_pos _ (by simp)]
  rfl

theorem mapGet_mapPut_ne (m : List (String × AbiValue)) (k k' : String) (v : AbiValue)
    (h : k' ≠ k) : mapGet (mapPut m k v) k' = mapGet m k' := by
  unfold mapGet mapPut
  rw [List.find?_cons_of_neg _ (by simp [Ne.symm h])]

theorem mapGet_foldPut_of_forall_ne (l : List (String × AbiValue))
    (m : List (String × AbiValue)) (k : String) (h : ∀ p ∈ l, p.1 ≠ k) :
    mapGet (l.foldl (fun m p => mapPut m p.1 p.2) m) k = mapGet m k := by
  induction l generalizing m with
  | nil => rfl
  | cons p ps ih =>
    rw [List.foldl_cons]
    rw [ih _ (fun q hq => h q (List.mem_cons_of_mem p hq))]
    exact mapGet_mapPut_ne m p.1 k p.2 (Ne.symm (h p (List.mem_cons_self p ps)))

/-- The bindings the indexed-parameter loop of `ParseEventLogs` writes
into the event-data map: one per indexed input while topics remain,
keyed by the input's name, valued by the topic's `Hex()` string. -/
def indexedAssignments (topics : List Hash32) : List Param → Nat → List (String × AbiValue)
  | [], _ => []
  | input :: rest, ti =>
    if input.indexed ∧ ti < topics.length then
      (input.name, AbiValue.str (hashHex (topics.getD ti []))) ::
        indexedAssignments topics rest (ti + 1)
    else indexedAssignments topics rest ti

theorem indexedLoop_eq_foldl (topics : List Hash32) (inputs : List Param) (ti : Nat)
    (m : List (String × AbiValue)) :
    indexedLoop topics inputs ti m =
      (indexedAssignments topics inputs ti).foldl (fun m p => mapPut m p.1 p.2) m := by
  induction inputs generalizing ti m with
  | nil => rfl
  | cons i inputs ih =>
    rw [indexedLoop, indexedAssignments]
    by_cases h : i.indexed ∧ ti < topics.length
    · rw [if_pos h, if_pos h, List.foldl_cons]
      exact ih _ _
    · rw [if_neg h, if_neg h]
      exact ih _ _

theorem indexedAssignments_eq_zip (topics : List Hash32) (inputs : List Param) (ti : Nat) :
    indexedAssignments topics inputs ti =
      ((inputs.filter (fun i => i.indexed)).zip (topics.drop ti)).map
        (fun p => (p.1.name, AbiValue.str (hashHex p.2))) := by
  induction inputs generalizing ti with
  | nil => rfl
  | cons i inputs ih =>
    rw [indexedAssignments, List.filter_cons]
    by_cases hi : i.indexed = true
    · by_cases hti : ti < topics.length
      · rw [if_pos ⟨hi, hti⟩, if_pos hi, List.drop_eq_getElem_cons hti, List.zip_cons_cons,
          List.map_cons, List.getD_eq_getElem topics [] hti, ih (ti + 1)]
      · have hdrop : topics.drop ti = [] := List.drop_eq_nil_of_le (by omega)
        rw [if_neg (fun hc => hti hc.2), if_pos hi, ih ti, hdrop, List.zip_nil_right,
          List.zip_nil_right]
    · rw [if_neg (fun hc => hi hc.1), if_neg hi]
      exact ih ti

/-- How the event-data map answers lookups for the indexed inputs, one
topic per indexed input in order, `none` once topics have run out. -/
def mapMatches (m : List (String × AbiValue)) : List Param → List Hash32 → Prop
  | [], _ => True
  | i :: ixs, [] => mapGet m i.name = none ∧ mapMatches m ixs []
  | i :: ixs, t :: ts => mapGet m i.name = some (AbiValue.str (hashHex t)) ∧ mapMatches m ixs ts

theorem mapMatches_of_none (m : List (String × AbiValue)) (ixs : List Param)
    (h : ∀ i ∈ ixs, mapGet m i.name = none) : mapMatches m ixs [] := by
  induction ixs with
  | nil => trivial
  | cons i ixs ih =>
    exact ⟨h i (List.mem_cons_self i ixs),
      ih (fun j hj => h j (List.mem_cons_of_mem i hj))⟩

theorem mapMatches_foldPut (ixs : List Param) (ts : List Hash32)
    (m0 : List (String × AbiValue))
    (hnd : (ixs.map Param.name).Nodup)
    (h0 : ∀ i ∈ ixs, mapGet m0 i.name = none) :
    mapMatches
      (((ixs.zip ts).map (fun p => (p.1.name, AbiValue.str (hashHex p.2)))).foldl
        (fun m p => mapPut m p.1 p.2) m0) ixs ts := by
  induction ixs generalizing ts m0 with
  | nil => trivial
  | cons i ixs ih =>
    rw [List.map_cons] at hnd
    have hni : i.name ∉ ixs.map Param.name := (List.nodup_cons.mp hnd).1
    have hndt : (ixs.map Param.name).Nodup := (List.nodup_cons.mp hnd).2
    cases ts with
    | nil =>
      show mapMatches m0 (i :: ixs) []
      exact mapMatches_of_none m0 (i :: ixs) h0
    | cons t ts =>
      simp only [List.zip_cons_cons, List.map_cons, List.foldl_cons]
      refine ⟨?_, ?_⟩
      · rw [mapGet_foldPut_of_forall_ne]
        · exact mapGet_mapPut_self m0 i.name _
        · intro p hp
          obtain ⟨q, hq, rfl⟩ := List.mem_map.mp hp
          have hq1 : q.1 ∈ ixs := (List.of_mem_zip hq).1
          intro hc
          apply hni
          rw [← hc]
          exact List.mem_map_of_mem Param.name hq1
      · apply ih ts _ hndt
        intro i' hi'
        have hne : i'.name ≠ i.name := fun hc =>
          hni (hc ▸ List.mem_map_of_mem Param.name hi')
        rw [mapGet_mapPut_ne m0 i.name i'.name _ hne]
        exact h0 i' (List.mem_cons_of_mem i hi')

theorem buildEventParams_of_mapMatches (keccak : Bytes → Bytes) (ixs : List Param)
    (ts : List Hash32) (m : List (String × AbiValue)) (h : mapMatches m ixs ts) :
    buildEventParams keccak ixs m =
      (ixs.zip ts).map (fun p =>
        { name := p.1.name, typ := p.1.typ, value := hashHex p.2,
          indexed := p.1.indexed }) := by
  induction ixs generalizing ts with
  | nil => rfl
  | cons i ixs ih =>
    cases ts with
    | nil =>
      obtain ⟨h1, h2⟩ := h
      rw [List.zip_nil_right, List.map_nil]
      unfold buildEventParams
      rw [List.filterMap_cons, h1]
      have := ih [] h2
      rw [List.zip_nil_right, List.map_nil] at this
      unfold buildEventParams at this
      simpa using this
    | cons t ts =>
      obtain ⟨h1, h2⟩ := h
      unfold buildEventParams
      rw [List.filterMap_cons, h1, List.zip_cons_cons, List.map_cons]
      have := ih ts h2
      unfold buildEventParams at this
      simpa [formatValue] using this

theorem buildEventParams_filter_indexed (keccak : Bytes → Bytes) (inputs : List Param)
    (m : List (String × AbiValue)) :
    (buildEventParams keccak inputs m).filter (fun p => p.indexed) =
      buildEventParams keccak (inputs.filter (fun i => i.indexed)) m := by
  induction inputs with
  | nil => rfl
  | cons i inputs ih =>
    unfold buildEventParams
    rw [List.filterMap_cons, List.filter_cons]
    by_cases hi : i.indexed
    · rw [if_pos (by simpa using hi)]
      cases hg : mapGet m i.name with
      | none =>
        rw [List.filterMap_cons, hg]
        simpa [buildEventParams] using ih
      | some v =>
        rw [List.filterMap_cons, hg]
        simp only [Option.map_some']
        rw [List.filter_cons]
        rw [if_pos (by simpa using hi)]
        have := ih
        unfold buildEventParams at this
        simp only [this]
    · rw [if_neg (by simpa using hi)]
      cases hg : mapGet m i.name with
      | none =>
        simpa [buildEventParams] using ih
      | some v =>
        simp only [Option.map_some']
        rw [List.filter_cons]
        rw [if_neg (by simpa using hi)]
        simpa [buildEventParams] using ih

/-- C5, counterexample: the loaded `Pair(address,address)` event
declares two indexed parameters, both unnamed (as the ABI JSON schema
permits); the log supplies the topic hash plus a single further topic
and no data, so a topic existed for only the first indexed parameter —
yet the returned parameter list has two entries, both carrying the
single topic's value, because the event-data mapping is keyed by
parameter name and the two parameters share the empty name.  The list
therefore does not contain only the indexed parameters for which a
topic existed. -/
theorem claim5_shortfall_counterexample :
    (ParseEventLogs wordsUnpackMap demoKeccak [tokenContract]
        [List.replicate 32 9, List.replicate 32 5] []).parameters =
      [⟨"", "address", hashHex (List.replicate 32 5), true⟩,
       ⟨"", "address", hashHex (List.replicate 32 5), true⟩] ∧
    (ParseEventLogs wordsUnpackMap demoKeccak [tokenContract]
        [List.replicate 32 9, List.replicate 32 5] []).parameters.length ≠ 1 := by
  refine ⟨by decide, by decide⟩

/-- C5, amended: for a matched event whose declared parameter names are
pairwise distinct, when the non-indexed payload decoding succeeds (or
is skipped because the payload is empty or no non-indexed parameter
exists) and binds no indexed parameter's name, and the topic list
supplies fewer topics beyond the hash than there are indexed
parameters, the result is a success record: empty error, and its
indexed entries are exactly the indexed parameters for which a topic
existed — one per supplied topic, in declaration order, valued by the
raw topic hex. -/
theorem claim5_topic_shortfall_amended
    (unpackMap : List Param → Bytes → Except String (List (String × AbiValue)))
    (keccak : Bytes → Bytes) (iter : List ContractInfo) (t0 : Hash32)
    (rest : List Hash32) (data : Bytes) (c : ContractInfo) (ev : EventDef)
    (m0 : List (String × AbiValue))
    (hfind : findEvent iter t0 = some (c, ev))
    (hnodup : (ev.inputs.map Param.name).Nodup)
    (hstep : nonIndexedStep unpackMap ev data = Except.ok m0)
    (hm0 : ∀ i ∈ ev.inputs, i.indexed = true → mapGet m0 i.name = none)
    (hshort : rest.length < (ev.inputs.filter (fun i => i.indexed)).length) :
    (ParseEventLogs unpackMap keccak iter (t0 :: rest) data).error = "" ∧
    ((ParseEventLogs unpackMap keccak iter (t0 :: rest) data).parameters.filter
        (fun p => p.indexed)) =
      ((ev.inputs.filter (fun i => i.indexed)).zip rest).map
        (fun p => ⟨p.1.name, p.1.typ, hashHex p.2, p.1.indexed⟩) ∧
    ((ParseEventLogs unpackMap keccak iter (t0 :: rest) data).parameters.filter
        (fun p => p.indexed)).length = rest.length := by
  have hred : ParseEventLogs unpackMap keccak iter (t0 :: rest) data =
      processEvent unpackMap keccak ev (t0 :: rest) data :=
    parseEvLoop_of_findEvent_some unpackMap keccak t0 (t0 :: rest) data iter c ev hfind
  have hnodupIx : ((ev.inputs.filter (fun i => i.indexed)).map Param.name).Nodup :=
    List.Nodup.sublist (List.Sublist.map Param.name (List.filter_sublist ev.inputs)) hnodup
  have hm0Ix : ∀ i ∈ ev.inputs.filter (fun i => i.indexed), mapGet m0 i.name = none := by
    intro i hi
    exact hm0 i (List.mem_of_mem_filter hi) (List.of_mem_filter hi)
  have hmain : (processEvent unpackMap keccak ev (t0 :: rest) data).parameters.filter
      (fun p => p.indexed) =
      ((ev.inputs.filter (fun i => i.indexed)).zip rest).map
        (fun p => ⟨p.1.name, p.1.typ, hashHex p.2, p.1.indexed⟩) := by
    unfold processEvent
    rw [hstep]
    show (buildEventParams keccak ev.inputs
        (indexedLoop (t0 :: rest) ev.inputs 1 m0)).filter (fun p => p.indexed) = _
    rw [buildEventParams_filter_indexed, indexedLoop_eq_foldl, indexedAssignments_eq_zip,
      show List.drop 1 (t0 :: rest) = rest from rfl]
    exact buildEventParams_of_mapMatches keccak _ rest _
      (mapMatches_foldPut _ rest m0 hnodupIx hm0Ix)
  refine ⟨?_, ?_, ?_⟩
  · rw [hred]
    unfold processEvent
    rw [hstep]
  · rw [hred]
    exact hmain
  · rw [hred, hmain, List.length_map, List.length_zip]
    omega

/-- Witness for the amended C5: the `Transfer` event with two indexed
parameters, one topic beyond the hash, and an empty data payload. -/
theorem claim5_topic_shortfall_amended_witness :
    findEvent [tokenContract] (List.replicate 32 7) = some (tokenContract, evTransfer) ∧
    (evTransfer.inputs.map Param.name).Nodup ∧
    nonIndexedStep wordsUnpackMap evTransfer [] = Except.ok [] ∧
    (∀ i ∈ evTransfer.inputs, i.indexed = true → mapGet [] i.name = none) ∧
    ([List.replicate 32 5] : List Hash32).length <
      (evTransfer.inputs.filter (fun i => i.indexed)).length ∧
    ((ParseEventLogs wordsUnpackMap demoKeccak [tokenContract]
        (List.replicate 32 7 :: [List.replicate 32 5]) []).error = "" ∧
     ((ParseEventLogs wordsUnpackMap demoKeccak [tokenContract]
        (List.replicate 32 7 :: [List.replicate 32 5]) []).parameters.filter
          (fun p => p.indexed)) =
        ((evTransfer.inputs.filter (fun i => i.indexed)).zip [List.replicate 32 5]).map
          (fun p => ⟨p.1.name, p.1.typ, hashHex p.2, p.1.indexed⟩) ∧
     ((ParseEventLogs wordsUnpackMap demoKeccak [tokenContract]
        (List.replicate 32 7 :: [List.replicate 32 5]) []).parameters.filter
          (fun p => p.indexed)).length = ([List.replicate 32 5] : List Hash32).length) :=
  ⟨by decide, by decide, by decide, by decide, by decide,
    claim5_topic_shortfall_amended wordsUnpackMap demoKeccak [tokenContract]
      (List.replicate 32 7) [List.replicate 32 5] [] tokenContract evTransfer []
      (by decide) (by decide) (by decide) (by decide) (by decide)⟩
